import Mathlib

/-!
Shallow embedding of the soulsformats repository core: the byte-reading
primitives of src/io.rs, the DCX container codec of src/container/dcx.rs and
the BND4 archive reader of src/archive/bnd4.rs.

Byte streams are lists of naturals (each element a byte value).  A parser
consumes a prefix of the stream and either returns normally, returns a
recoverable io error (Rust Result::Err), or aborts the process (a Rust
panic, assertion failure or unimplemented macro).
-/

namespace Souls

/-- Recoverable io error kinds used by the source (UnexpectedEof from
read_u8 / read_exact, InvalidData from the invalid_data helper). -/
inductive IoErr where
  | eof
  | invalidData (msg : String)
deriving DecidableEq, Repr

/-- Result of running a parser on a byte stream: normal return with the
unconsumed rest, recoverable error with the stream state at the error, or
process abort (panic). -/
inductive PResult (α : Type) where
  | ok (a : α) (rest : List Nat)
  | err (e : IoErr) (rest : List Nat)
  | abort (msg : String)
deriving DecidableEq, Repr

/-- A sequential byte parser. -/
def P (α : Type) : Type := List Nat → PResult α

def P.pure (a : α) : P α := fun s => .ok a s

def P.bind (m : P α) (f : α → P β) : P β := fun s =>
  match m s with
  | .ok a s1 => f a s1
  | .err e s1 => .err e s1
  | .abort msg => .abort msg

instance : Monad P where
  pure := P.pure
  bind := P.bind

/-- `invalid_data` from src/io.rs: an InvalidData error return. -/
def failInvalid (msg : String) : P α := fun s => .err (.invalidData msg) s

/-- `read_u8`: one byte, UnexpectedEof on an empty stream. -/
def readU8 : P Nat := fun s =>
  match s with
  | [] => .err .eof []
  | b :: rest => .ok b rest

/-- `read_exact` into an `n`-byte buffer, returned as a list. -/
def readBytes : Nat → P (List Nat)
  | 0 => P.pure []
  | n + 1 =>
    P.bind readU8 fun b =>
    P.bind (readBytes n) fun bs =>
    P.pure (b :: bs)

/-- Little-endian value of a byte list (first byte least significant). -/
def leVal (bs : List Nat) : Nat := bs.foldr (fun b acc => b + 256 * acc) 0

/-- byteorder combine: interpret `bs` in the selected byte order
(`big = true` means the first byte is most significant). -/
def combine (big : Bool) (bs : List Nat) : Nat :=
  if big then leVal bs.reverse else leVal bs

/-- `read_uN::<Order>`: an `n`-byte unsigned integer in byte order `big`. -/
def readUN (n : Nat) (big : Bool) : P Nat :=
  P.bind (readBytes n) fun bs => P.pure (combine big bs)

def readU32 (big : Bool) : P Nat := readUN 4 big

def readU64 (big : Bool) : P Nat := readUN 8 big

/-- `read_i32::<Order>`: a 32-bit two's-complement signed integer. -/
def readI32 (big : Bool) : P Int :=
  P.bind (readU32 big) fun v =>
  P.pure (if v < 2 ^ 31 then (v : Int) else (v : Int) - 2 ^ 32)

/-- `read_bool`: one byte, true exactly when it equals 1. -/
def readBool : P Bool :=
  P.bind readU8 fun v => P.pure (decide (v = 1))

/-- `expect_u8`: read one byte and require it to equal `v`. -/
def expectU8 (v : Nat) : P Unit :=
  P.bind readU8 fun b =>
  if b = v then P.pure () else failInvalid "Unexpected data"

/-- `expect_i32::<Order>`: read an i32 and require it to equal `v`. -/
def expectI32 (big : Bool) (v : Int) : P Unit :=
  P.bind (readI32 big) fun x =>
  if x = v then P.pure () else failInvalid "Unexpected data"

/-- `expect`: require the next bytes to equal `bytes`, byte by byte. -/
def expectBytes : List Nat → P Unit
  | [] => P.pure ()
  | b :: bs =>
    P.bind readU8 fun v =>
    if v = b then expectBytes bs else failInvalid "Unexpected data at position"

/-- Loop body of `read_cstr`: accumulate bytes until a zero byte. -/
def readCStrList : List Nat → PResult (List Nat)
  | [] => .err .eof []
  | b :: rest =>
    if b = 0 then .ok [] rest
    else
      match readCStrList rest with
      | .ok acc r => .ok (b :: acc) r
      | .err e r => .err e r
      | .abort msg => .abort msg

/-- `read_cstr`: null-terminated byte string (SHIFT_JIS decoding of the
accumulated bytes is external; the model returns the raw bytes). -/
def readCStr : P (List Nat) := readCStrList

/-- Loop body of `read_utf16`: read bytes in pairs, stop at a zero pair,
combine each pair into a 16-bit code unit in the given byte order. -/
def readUtf16List (big : Bool) : List Nat → PResult (List Nat)
  | [] => .err .eof []
  | [_] => .err .eof []
  | l :: h :: rest =>
    if l = 0 ∧ h = 0 then .ok [] rest
    else
      match readUtf16List big rest with
      | .ok units r => .ok ((if big then 256 * l + h else l + 256 * h) :: units) r
      | .err e r => .err e r
      | .abort msg => .abort msg

/-- `read_utf16`: null-terminated UTF-16 code-unit sequence in byte order
`big` (termination on a two-byte zero pair). -/
def readUtf16 (big : Bool) : P (List Nat) := readUtf16List big

/-! ### Seekable streams -/

/-- An in-memory seekable stream: the full underlying byte content plus the
current cursor position.  The archive owns one of these for its whole life. -/
structure Cursor where
  bytes : List Nat
  pos : Nat
deriving DecidableEq, Repr

/-- Result of an operation on a seekable stream. -/
inductive CResult (α : Type) where
  | ok (a : α) (c : Cursor)
  | err (e : IoErr) (c : Cursor)
  | abort (msg : String)
deriving DecidableEq, Repr

/-- `SeekableReadExt::at` (named `atPos` here): record the current position,
seek to `position`, run the consumer from there, seek back to the recorded
position, and return the consumer's result.  The restore seek runs whether
the consumer succeeded or returned an error. -/
def Cursor.atPos (c : Cursor) (position : Nat) (consumer : P α) : CResult α :=
  let current := c.pos
  match consumer (c.bytes.drop position) with
  | .ok a _ => .ok a { bytes := c.bytes, pos := current }
  | .err e _ => .err e { bytes := c.bytes, pos := current }
  | .abort msg => .abort msg

/-! ### DCX container codec (src/container/dcx.rs) -/

/-- Byte size of the `Metadata` header struct: thirteen 4-byte fields plus
one 24-byte field of six u32s. -/
def dcxMetadataSize : Nat := 76

def dcxMagicBytes : List Nat := [68, 67, 88, 0]

def dcpMagicBytes : List Nat := [68, 67, 80, 0]

def dcsMagicBytes : List Nat := [68, 67, 83, 0]

def dfltCode : List Nat := [68, 70, 76, 84]

def krakCode : List Nat := [75, 82, 65, 75]

def edgeCode : List Nat := [69, 68, 71, 69]

/-- Result of `DcxReader::new`: on success the remaining bytes are handed
to the zlib decoder and decompressed lazily. -/
inductive DcxResult where
  | ok (payload : List Nat)
  | err (e : IoErr)
  | abort (msg : String)
deriving DecidableEq, Repr

/-- Slice of `n` bytes of `l` starting at index `i`. -/
def getSlice (l : List Nat) (i n : Nat) : List Nat := (l.drop i).take n

/-- `DcxReader::new`: read exactly the 76-byte header (UnexpectedEof if the
input is shorter), assert the `DCX\0`, `DCP\0` and `DCS\0` magics in that
order (an assertion failure aborts the process), then dispatch on the 4-byte
algorithm code: `DFLT` succeeds with the remaining bytes wrapped in a zlib
decoder; `KRAK`, `EDGE` and every other code abort via `unimplemented`. -/
def DcxReader.new (input : List Nat) : DcxResult :=
  if input.length < dcxMetadataSize then .err .eof
  else if getSlice input 0 4 ≠ dcxMagicBytes then .abort "assertion failed: dcx_magic"
  else if getSlice input 36 4 ≠ dcpMagicBytes then .abort "assertion failed: dcp_magic"
  else if getSlice input 24 4 ≠ dcsMagicBytes then .abort "assertion failed: dcs_magic"
  else if getSlice input 40 4 = dfltCode then .ok (input.drop dcxMetadataSize)
  else if getSlice input 40 4 = krakCode then .abort "not implemented: Oodle Kraken"
  else if getSlice input 40 4 = edgeCode then .abort "not implemented: Edge?"
  else .abort "not implemented"

/-! ### BND4 flag bit sets (src/archive/bnd4.rs) -/

/-- `u8::reverse_bits`: the bit at index `i` moves to index `7 - i`. -/
def reverseBits8 (b : Nat) : Nat :=
  128 * (b % 2) + 64 * (b / 2 % 2) + 32 * (b / 4 % 2) + 16 * (b / 8 % 2) +
    8 * (b / 16 % 2) + 4 * (b / 32 % 2) + 2 * (b / 64 % 2) + b / 128 % 2

/-- Union of the defined `Bnd4Flags` bits: BIG_ENDIAN 0x01, SUPPORTS_IDS
0x02, SUPPORTS_PATHS 0x04, SUPPORTS_NAMES 0x08, LONG_OFFSETS 0x10,
SUPPORTS_COMPRESSION 0x20. -/
def bnd4FlagsMask : Nat := 63

/-- Union of the defined `Bnd4EntryFlags` bits: HAS_ID 0x02, HAS_NAME 0x04,
HAS_NAME_2 0x08, COMPRESSED 0x20, UNK 0x40. -/
def bnd4EntryFlagsMask : Nat := 110

/-- `Bnd4Flags::from_bits` succeeds exactly when no bit outside the defined
set is present. -/
def validBnd4Flags (b : Nat) : Bool := decide (b &&& bnd4FlagsMask = b)

/-- `Bnd4EntryFlags::from_bits` succeeds exactly when no bit outside the
defined set is present. -/
def validEntryFlags (b : Nat) : Bool := decide (b &&& bnd4EntryFlagsMask = b)

/-- `Bnd4Flags::has_long_offsets`: contains LONG_OFFSETS (bit 4). -/
def hasLongOffsets (f : Nat) : Bool := f.testBit 4

/-- `Bnd4Flags::supports_filenames`: intersects SUPPORTS_PATHS (bit 2) or
SUPPORTS_NAMES (bit 3). -/
def supportsFilenames (f : Nat) : Bool := f.testBit 2 || f.testBit 3

/-- `Bnd4Flags::supports_ids`: contains SUPPORTS_IDS (bit 1). -/
def supportsIds (f : Nat) : Bool := f.testBit 1

/-- `format.contains(Bnd4Flags::SUPPORTS_COMPRESSION)` (bit 5). -/
def supportsCompression (f : Nat) : Bool := f.testBit 5

/-- `Bnd4EntryFlags::COMPRESSED` membership test (bit 5). -/
def entryCompressed (f : Nat) : Bool := f.testBit 5

/-- The shared flag-byte decode step used for both the archive format byte
and each entry's flag byte: read one byte, reverse its bit order unless
`is_flags_le`, then check it against the defined bit set, failing with
InvalidData otherwise (the `from_bits ... ok_or_else(invalid_data ...)`
pattern of the source). -/
def readFlagByte (is_flags_le : Bool) (mask : Nat) (msg : String) : P Nat :=
  P.bind readU8 fun fb =>
  let bits := if is_flags_le then fb else reverseBits8 fb
  if bits &&& mask = bits then P.pure bits else failInvalid msg

/-! ### BND4 archive reader (src/archive/bnd4.rs) -/

/-- `Bnd4ArchiveInfo`: the recorded archive header fields. -/
structure Bnd4ArchiveInfo where
  file_count : Nat
  header_size : Nat
  version : List Nat
  file_header_size : Nat
  file_header_end : Nat
  unicode : Bool
  format : Nat
  extended : Bool
  name_buckets_offset : Nat
deriving DecidableEq, Repr

/-- `Bnd4FileInfo`: one parsed entry record. -/
structure Bnd4FileInfo where
  flags : Nat
  size : Nat
  data_offset : Nat
  decompressed_size : Option Nat
  id : Option Int
  name_offset : Option Nat
deriving DecidableEq, Repr

/-- `Bnd4Archive::read_archive_info::<Order>`. -/
def read_archive_info (big is_flags_le : Bool) : P Bnd4ArchiveInfo :=
  P.bind (readU32 big) fun file_count =>
  P.bind (readU64 big) fun header_size =>
  P.bind (readBytes 8) fun version =>
  P.bind (readU64 big) fun file_header_size =>
  P.bind (readU64 big) fun file_header_end =>
  P.bind readBool fun unicode =>
  P.bind (readFlagByte is_flags_le bnd4FlagsMask "Invalid BND4 archive flags") fun format =>
  P.bind readBool fun extended =>
  P.bind (expectU8 0) fun _ =>
  P.bind (readU32 big) fun _ =>
  P.bind (readU64 big) fun name_buckets_offset =>
  P.pure { file_count, header_size, version, file_header_size,
           file_header_end, unicode, format, extended, name_buckets_offset }

/-- `Bnd4Archive::read_entry_info::<Order>`. -/
def read_entry_info (big : Bool) (format : Nat) (is_flags_little_endian : Bool) :
    P Bnd4FileInfo :=
  P.bind (readFlagByte is_flags_little_endian bnd4EntryFlagsMask
      "Invalid BND4 entry flags") fun flags =>
  P.bind (expectU8 0) fun _ =>
  P.bind (expectU8 0) fun _ =>
  P.bind (expectU8 0) fun _ =>
  P.bind (expectI32 big (-1)) fun _ =>
  P.bind (readU64 big) fun size =>
  P.bind (if supportsCompression format then
            P.bind (readU64 big) fun v => P.pure (some v)
          else P.pure none) fun decompressed_size =>
  P.bind (if hasLongOffsets format then readU64 big else readU32 big) fun data_offset =>
  P.bind (if supportsIds format then
            P.bind (readI32 big) fun v => P.pure (some v)
          else P.pure none) fun id =>
  P.bind (if supportsFilenames format then
            P.bind (readU32 big) fun v => P.pure (some v)
          else P.pure none) fun name_offset =>
  P.pure { flags, size, data_offset, decompressed_size, id, name_offset }

/-- The entry-table loop of `new_from_header`: read exactly `n` entry
records in sequence. -/
def readEntries (big : Bool) (format : Nat) (is_flags_le : Bool) :
    Nat → P (List Bnd4FileInfo)
  | 0 => P.pure []
  | n + 1 =>
    P.bind (read_entry_info big format is_flags_le) fun e =>
    P.bind (readEntries big format is_flags_le n) fun rest =>
    P.pure (e :: rest)

/-- The fixed preamble of `Bnd4Archive::new`: the `BND4` magic, two recorded
booleans, three asserted zero bytes, the two endianness selector booleans and
one discarded byte.  Returns `(is_big_endian, is_flags_little_endian)`. -/
def bnd4Preamble : P (Bool × Bool) :=
  P.bind (expectBytes [66, 78, 68, 52]) fun _ =>
  P.bind readBool fun _ =>
  P.bind readBool fun _ =>
  P.bind (expectU8 0) fun _ =>
  P.bind (expectU8 0) fun _ =>
  P.bind (expectU8 0) fun _ =>
  P.bind readBool fun is_big_endian =>
  P.bind readBool fun is_flags_little_endian =>
  P.bind readU8 fun _ =>
  P.pure (is_big_endian, is_flags_little_endian)

/-- Everything `Bnd4Archive::new` consumes before the first entry record:
the preamble followed by `read_archive_info` in the selected byte order. -/
def bnd4Header : P (Bool × Bool × Bnd4ArchiveInfo) :=
  P.bind bnd4Preamble fun sel =>
  P.bind (read_archive_info sel.1 sel.2) fun info =>
  P.pure (sel.1, sel.2, info)

/-- `Bnd4Archive`: the recorded header, the entry table, the stored
`is_big_endian` selector and the owned stream. -/
structure Bnd4Archive where
  archive_info : Bnd4ArchiveInfo
  entries : List Bnd4FileInfo
  is_big_endian : Bool
  bytes : List Nat
  pos : Nat
deriving DecidableEq, Repr

/-- `Bnd4Archive::new`: parse the preamble, the archive header and exactly
`file_count` entry records, then retain the stream. -/
def bnd4New (bytes : List Nat) : PResult Bnd4Archive :=
  match bnd4Header bytes with
  | .ok (big, fle, info) rest =>
    match readEntries big info.format fle info.file_count rest with
    | .ok entries rest2 =>
      .ok { archive_info := info, entries, is_big_endian := big, bytes,
            pos := bytes.length - rest2.length } rest2
    | .err e r => .err e r
    | .abort msg => .abort msg
  | .err e r => .err e r
  | .abort msg => .abort msg

/-- `Bnd4Archive::len`. -/
def Bnd4Archive.len (a : Bnd4Archive) : Nat := a.archive_info.file_count

/-- The two states of an opened entry's reader: the size-bounded view
directly, or that view wrapped in a `DcxReader` (whose `new` has already
consumed the 76-byte container header from the view). -/
inductive Bnd4FileReader where
  | uncompressed (data : List Nat)
  | compressed (payload : List Nat)
deriving DecidableEq, Repr

/-- `Bnd4File`: an opened entry. -/
structure Bnd4File where
  entry : Bnd4FileInfo
  name : Option (List Nat)
  reader : Bnd4FileReader
deriving DecidableEq, Repr

/-- `Bnd4Archive::file`: aborts (the `panic` at the top of the function)
when `index >= file_count`; otherwise resolves the name through a scoped
seek when the entry has a name offset, seeks to the entry's data offset,
bounds the stream to `size` bytes and wraps it in a `DcxReader` when the
entry's COMPRESSED flag is set. -/
def Bnd4Archive.file (a : Bnd4Archive) (index : Nat) : CResult Bnd4File :=
  if a.archive_info.file_count ≤ index then .abort "explicit panic"
  else
    match a.entries.get? index with
    | none => .abort "index out of bounds"
    | some entry =>
      let c : Cursor := { bytes := a.bytes, pos := a.pos }
      let nameStep : CResult (Option (List Nat)) :=
        match entry.name_offset with
        | some offset =>
          match c.atPos offset
              (if a.archive_info.unicode then readUtf16 a.is_big_endian
               else readCStr) with
          | .ok n c1 => .ok (some n) c1
          | .err e c1 => .err e c1
          | .abort msg => .abort msg
        | none => .ok none c
      match nameStep with
      | .err e c1 => .err e c1
      | .abort msg => .abort msg
      | .ok name c1 =>
        let c2 : Cursor := { bytes := c1.bytes, pos := entry.data_offset }
        let data := (c2.bytes.drop entry.data_offset).take entry.size
        if entryCompressed entry.flags then
          match DcxReader.new data with
          | .ok payload => .ok { entry, name, reader := .compressed payload } c2
          | .err e => .err e c2
          | .abort msg => .abort msg
        else .ok { entry, name, reader := .uncompressed data } c2

/-- The bytes an opened entry's reader draws from: the bounded view for an
uncompressed entry, the post-header remainder of the bounded view for a
compressed one. -/
def Bnd4File.sourceBytes (f : Bnd4File) : List Nat :=
  match f.reader with
  | .uncompressed data => data
  | .compressed payload => payload

/-- Fully draining an opened entry (`read_to_end`): an uncompressed entry
yields the bounded view; a compressed one yields the zlib decompression of
the payload, where `inflate` models the external zlib decoder (`none` is a
decoder data-corruption error). -/
def Bnd4File.drain (inflate : List Nat → Option (List Nat)) (f : Bnd4File) :
    Option (List Nat) :=
  match f.reader with
  | .uncompressed data => some data
  | .compressed payload => inflate payload

/-! ### Auxiliary notions used by the statements -/

/-- The observable outcome of a stream operation, with the cursor state
stripped. -/
inductive Outcome (α : Type) where
  | ok (a : α)
  | err (e : IoErr)
  | abort (msg : String)

def CResult.outcome : CResult α → Outcome α
  | .ok a _ => .ok a
  | .err e _ => .err e
  | .abort msg => .abort msg

/-- Whether a `DcxReader::new` result is a process abort. -/
def isDcxAbort : DcxResult → Bool
  | .abort _ => true
  | _ => false

/-- Replace the bytes of `l` at positions `i, i+1, ...` by `u`. -/
def setSlice (l : List Nat) (i : Nat) (u : List Nat) : List Nat :=
  l.take i ++ u ++ l.drop (i + u.length)

/-- Little-endian byte encoding of `v` on `n` bytes. -/
def encodeLe : Nat → Nat → List Nat
  | 0, _ => []
  | n + 1, v => v % 256 :: encodeLe n (v / 256)

/-- Byte encoding of `v` on `n` bytes in byte order `big`. -/
def encodeU (n : Nat) (big : Bool) (v : Nat) : List Nat :=
  if big then (encodeLe n v).reverse else encodeLe n v

/-- Two's-complement 32-bit encoding of an integer. -/
def encodeI32 (big : Bool) (v : Int) : List Nat :=
  encodeU 4 big (v % 2 ^ 32).toNat

/-- The on-disk byte size of one entry record as a function of the archive
format flags. -/
def entryRecordSize (format : Nat) : Nat :=
  16 + (if supportsCompression format then 8 else 0) +
    (if hasLongOffsets format then 8 else 4) +
    (if supportsIds format then 4 else 0) +
    (if supportsFilenames format then 4 else 0)

/-- The on-disk encoding of one entry record in the field order of the
format: flag byte (bit-reversed on disk when the flag byte order is not
little-endian), three zero bytes, the asserted -1 i32, `size`,
`decompressed_size` iff the archive supports compression, `data_offset` as
u32 or u64 per LONG_OFFSETS, `id` iff the archive supports ids and
`name_offset` iff it supports filenames; absent fields contribute no
bytes. -/
def encodeEntry (big fle : Bool) (format : Nat) (e : Bnd4FileInfo) : List Nat :=
  [if fle then e.flags else reverseBits8 e.flags] ++ [0, 0, 0] ++
    encodeI32 big (-1) ++ encodeU 8 big e.size ++
    (match e.decompressed_size with
     | some d => encodeU 8 big d
     | none => []) ++
    (if hasLongOffsets format then encodeU 8 big e.data_offset
     else encodeU 4 big e.data_offset) ++
    (match e.id with
     | some v => encodeI32 big v
     | none => []) ++
    (match e.name_offset with
     | some v => encodeU 4 big v
     | none => [])

/-- Byte stream of a list of UTF-16 byte pairs, first byte of each pair
first. -/
def encodePairs : List (Nat × Nat) → List Nat
  | [] => []
  | p :: ps => p.1 :: p.2 :: encodePairs ps

/-- A parser that, whenever it succeeds, has consumed exactly `n` bytes of
its input. -/
def ConsumesExactly (n : Nat) (p : P α) : Prop :=
  ∀ s a rest, p s = .ok a rest → n ≤ s.length ∧ rest = s.drop n

/-- Open an archive and then open entry `index`, for concrete evaluation. -/
def newThenFile (bytes : List Nat) (index : Nat) : Option (CResult Bnd4File) :=
  match bnd4New bytes with
  | .ok a _ => some (Bnd4Archive.file a index)
  | _ => none

/-- The parse-relevant projection of an archive-open result: the recorded
header, the entry table and the stored endianness selector. -/
def bnd4NewParts (bytes : List Nat) :
    Option (Bnd4ArchiveInfo × List Bnd4FileInfo × Bool) :=
  match bnd4New bytes with
  | .ok a _ => some (a.archive_info, a.entries, a.is_big_endian)
  | _ => none

/-- The number of bytes a full drain of an opened entry must yield: the
declared decompressed size when that field is present, the declared size
otherwise. -/
def declaredDrainLen (e : Bnd4FileInfo) : Nat :=
  match e.decompressed_size with
  | some d => d
  | none => e.size

/-- A well-formed entry of an opened archive: its payload lies within the
stream, its name (if any) decodes, a compressed entry only occurs when the
archive format supports compression and its payload is a DCX container
whose decompression yields the declared decompressed size, and an
uncompressed entry's decompressed-size field (if present) agrees with its
size. -/
def ValidEntry (inflate : List Nat → Option (List Nat)) (bytes : List Nat)
    (unicode bigName : Bool) (format : Nat) (e : Bnd4FileInfo) : Prop :=
  e.data_offset + e.size ≤ bytes.length ∧
  (∀ off, e.name_offset = some off →
    match (if unicode then readUtf16 bigName else readCStr) (bytes.drop off) with
    | .ok _ _ => True
    | _ => False) ∧
  (entryCompressed e.flags = true → supportsCompression format = true) ∧
  (entryCompressed e.flags = true →
    match DcxReader.new ((bytes.drop e.data_offset).take e.size) with
    | .ok payload => (inflate payload).map List.length = some (declaredDrainLen e)
    | _ => False) ∧
  (entryCompressed e.flags = false → ∀ d, e.decompressed_size = some d → d = e.size)

/-- A well-formed opened archive: every entry of its table is valid. -/
def ValidArchive (inflate : List Nat → Option (List Nat)) (a : Bnd4Archive) : Prop :=
  ∀ e ∈ a.entries, ValidEntry inflate a.bytes a.archive_info.unicode
    a.is_big_endian a.archive_info.format e

/-! ### Concrete byte streams used as inputs -/

/-- A minimal 64-byte little-endian archive: file count 0, format flags
empty. -/
def c1Bytes : List Nat :=
  [66, 78, 68, 52, 0, 0, 0, 0, 0, 0, 1, 0,
   0, 0, 0, 0,
   64, 0, 0, 0, 0, 0, 0, 0,
   0, 0, 0, 0, 0, 0, 0, 0,
   0, 0, 0, 0, 0, 0, 0, 0,
   0, 0, 0, 0, 0, 0, 0, 0,
   0, 0, 0, 0,
   0, 0, 0, 0,
   0, 0, 0, 0, 0, 0, 0, 0]

/-- A 76-byte DCX header with correct `DCX\0`, `DCS\0`, `DCP\0` magics, the
given algorithm code and the given 4-byte tag in the `dca_magic` slot. -/
def dcxHeaderWith (alg dca : List Nat) : List Nat :=
  [68, 67, 88, 0] ++ [68, 70, 76, 84] ++
    [0, 0, 0, 24] ++ [0, 0, 0, 44] ++ [0, 0, 0, 36] ++ [0, 0, 0, 68] ++
    [68, 67, 83, 0] ++ [0, 0, 0, 8] ++ [0, 0, 0, 16] ++
    [68, 67, 80, 0] ++ alg ++ List.replicate 24 0 ++ dca ++ [0, 0, 0, 8]

def dcaMagicBytes : List Nat := [68, 67, 65, 0]

/-- A DCX header whose first magic reads `XXX\0` instead of `DCX\0`. -/
def c3BadDcxHeader : List Nat :=
  [88, 88, 88, 0] ++ (dcxHeaderWith dfltCode dcaMagicBytes).drop 4

/-- A DCX header whose three checked magics are correct but whose fourth
tag slot holds garbage. -/
def c3BadDcaHeader : List Nat := dcxHeaderWith dfltCode [99, 99, 99, 99]

/-- The 64-byte archive header of `c1Bytes` with the discarded byte at
offset 11 and the discarded u32 at offsets 52-55 replaced by arbitrary
values. -/
def c10Family (b u1 u2 u3 u4 : Nat) : List Nat :=
  [66, 78, 68, 52, 0, 0, 0, 0, 0, 0, 1, b,
   0, 0, 0, 0,
   64, 0, 0, 0, 0, 0, 0, 0,
   0, 0, 0, 0, 0, 0, 0, 0,
   0, 0, 0, 0, 0, 0, 0, 0,
   0, 0, 0, 0, 0, 0, 0, 0,
   0, 0, 0, 0,
   u1, u2, u3, u4,
   0, 0, 0, 0, 0, 0, 0, 0]

/-- The archive header recorded from any member of `c10Family`. -/
def c10Info : Bnd4ArchiveInfo :=
  { file_count := 0, header_size := 64, version := [0, 0, 0, 0, 0, 0, 0, 0],
    file_header_size := 0, file_header_end := 0, unicode := false,
    format := 0, extended := false, name_buckets_offset := 0 }

/-- A 92-byte little-endian archive with format flags
{SUPPORTS_IDS, SUPPORTS_PATHS} stored directly (flag byte order
little-endian): format byte 6, entry flag byte 6. -/
def c5BytesDirect : List Nat :=
  [66, 78, 68, 52, 0, 0, 0, 0, 0, 0, 1, 0,
   1, 0, 0, 0,
   64, 0, 0, 0, 0, 0, 0, 0,
   0, 0, 0, 0, 0, 0, 0, 0,
   0, 0, 0, 0, 0, 0, 0, 0,
   0, 0, 0, 0, 0, 0, 0, 0,
   0, 6, 0, 0,
   0, 0, 0, 0,
   0, 0, 0, 0, 0, 0, 0, 0,
   6, 0, 0, 0,
   255, 255, 255, 255,
   4, 0, 0, 0, 0, 0, 0, 0,
   92, 0, 0, 0,
   7, 0, 0, 0,
   0, 0, 0, 0]

/-- The same archive with the flag byte order switch off (byte 10 = 0) and
every flag byte bit-reversed on disk: format byte 96, entry flag byte
96. -/
def c5BytesReversed : List Nat :=
  [66, 78, 68, 52, 0, 0, 0, 0, 0, 0, 0, 0,
   1, 0, 0, 0,
   64, 0, 0, 0, 0, 0, 0, 0,
   0, 0, 0, 0, 0, 0, 0, 0,
   0, 0, 0, 0, 0, 0, 0, 0,
   0, 0, 0, 0, 0, 0, 0, 0,
   0, 96, 0, 0,
   0, 0, 0, 0,
   0, 0, 0, 0, 0, 0, 0, 0,
   96, 0, 0, 0,
   255, 255, 255, 255,
   4, 0, 0, 0, 0, 0, 0, 0,
   92, 0, 0, 0,
   7, 0, 0, 0,
   0, 0, 0, 0]

/-- An 86-byte little-endian archive: one uncompressed, nameless entry of
2 payload bytes `[65, 66]` at offset 84. -/
def c7Bytes : List Nat :=
  [66, 78, 68, 52, 0, 0, 0, 0, 0, 0, 1, 0,
   1, 0, 0, 0,
   64, 0, 0, 0, 0, 0, 0, 0,
   0, 0, 0, 0, 0, 0, 0, 0,
   0, 0, 0, 0, 0, 0, 0, 0,
   0, 0, 0, 0, 0, 0, 0, 0,
   0, 0, 0, 0,
   0, 0, 0, 0,
   0, 0, 0, 0, 0, 0, 0, 0,
   0, 0, 0, 0,
   255, 255, 255, 255,
   2, 0, 0, 0, 0, 0, 0, 0,
   84, 0, 0, 0,
   65, 66]

/-- A concrete entry exercising every optional field, for a format with
compression, long offsets, ids and filenames (flag bits 62). -/
def c4Entry : Bnd4FileInfo :=
  { flags := 32, size := 5, data_offset := 100, decompressed_size := some 7,
    id := some (-2), name_offset := some 64 }

/-- The archive value `bnd4New` produces on `c7Bytes`. -/
def c7Arch : Bnd4Archive :=
  { archive_info :=
      { file_count := 1, header_size := 64, version := [0, 0, 0, 0, 0, 0, 0, 0],
        file_header_size := 0, file_header_end := 0, unicode := false,
        format := 0, extended := false, name_buckets_offset := 0 },
    entries := [{ flags := 0, size := 2, data_offset := 84,
                  decompressed_size := none, id := none, name_offset := none }],
    is_big_endian := false,
    bytes := c7Bytes,
    pos := 84 }

/-- The single entry record of `c7Arch`. -/
def c7Entry : Bnd4FileInfo :=
  { flags := 0, size := 2, data_offset := 84, decompressed_size := none,
    id := none, name_offset := none }

/-- The opened file `Bnd4Archive::file` yields for entry 0 of `c7Arch`. -/
def c7File : Bnd4File :=
  { entry := c7Entry, name := none,
    reader := Bnd4FileReader.uncompressed [65, 66] }

/-! ## Lemmas about the parser combinators -/

theorem P.bind_ok {m : P α} {f : α → P β} {s : List Nat} {a : α} {s1 : List Nat}
    (h : m s = .ok a s1) : P.bind m f s = f a s1 := by
  unfold P.bind
  rw [h]

theorem P.bind_eq_ok {m : P α} {f : α → P β} {s : List Nat} {b : β}
    {rest : List Nat} :
    P.bind m f s = .ok b rest ↔ ∃ a s1, m s = .ok a s1 ∧ f a s1 = .ok b rest := by
  unfold P.bind
  cases h : m s <;> simp [h]
  constructor
  · intro hf
    exact ⟨_, _, ⟨rfl, rfl⟩, hf⟩
  · rintro ⟨a, s1, ⟨rfl, rfl⟩, hf⟩
    exact hf

theorem readU8_cons (b : Nat) (rest : List Nat) : readU8 (b :: rest) = .ok b rest := rfl

theorem readBytes_append {l : List Nat} {n : Nat} (h : l.length = n)
    (rest : List Nat) : readBytes n (l ++ rest) = .ok l rest := by
  induction l generalizing n with
  | nil => subst h; rfl
  | cons b bs ih =>
    subst h
    show readBytes (bs.length + 1) (b :: (bs ++ rest)) = _
    simp only [readBytes]
    rw [P.bind_ok (readU8_cons b (bs ++ rest))]
    rw [P.bind_ok (ih rfl)]
    rfl

theorem encodeLe_length (n v : Nat) : (encodeLe n v).length = n := by
  induction n generalizing v with
  | zero => rfl
  | succ n ih => simp [encodeLe, ih]

theorem encodeU_length (n : Nat) (big : Bool) (v : Nat) :
    (encodeU n big v).length = n := by
  cases big <;> simp [encodeU, encodeLe_length]

theorem leVal_encodeLe (n v : Nat) : leVal (encodeLe n v) = v % 256 ^ n := by
  induction n generalizing v with
  | zero => simp [encodeLe, leVal, Nat.mod_one]
  | succ n ih =>
    show v % 256 + 256 * leVal (encodeLe n (v / 256)) = v % 256 ^ (n + 1)
    rw [ih]
    rw [pow_succ, mul_comm (256 ^ n) 256, Nat.mod_mul]

theorem combine_encodeU (n : Nat) (big : Bool) (v : Nat) :
    combine big (encodeU n big v) = v % 256 ^ n := by
  cases big <;> simp [combine, encodeU, leVal_encodeLe]

theorem readUN_encode {n v : Nat} (big : Bool) (h : v < 256 ^ n)
    (rest : List Nat) : readUN n big (encodeU n big v ++ rest) = .ok v rest := by
  unfold readUN
  rw [P.bind_ok (readBytes_append (encodeU_length n big v) rest)]
  simp [P.pure, combine_encodeU, Nat.mod_eq_of_lt h]

theorem readU64_encode {v : Nat} (big : Bool) (h : v < 2 ^ 64)
    (rest : List Nat) : readU64 big (encodeU 8 big v ++ rest) = .ok v rest := by
  unfold readU64
  exact readUN_encode big (by norm_num at h ⊢; omega) rest

theorem readU32_encode {v : Nat} (big : Bool) (h : v < 2 ^ 32)
    (rest : List Nat) : readU32 big (encodeU 4 big v ++ rest) = .ok v rest := by
  unfold readU32
  exact readUN_encode big (by norm_num at h ⊢; omega) rest

theorem readI32_encode {v : Int} (big : Bool) (h1 : -2 ^ 31 ≤ v) (h2 : v < 2 ^ 31)
    (rest : List Nat) : readI32 big (encodeI32 big v ++ rest) = .ok v rest := by
  have hnn : 0 ≤ v % 2 ^ 32 := Int.emod_nonneg v (by norm_num)
  have hlt : v % 2 ^ 32 < 2 ^ 32 := Int.emod_lt_of_pos v (by norm_num)
  have hu : (v % 2 ^ 32).toNat < 2 ^ 32 := by omega
  unfold readI32 encodeI32
  rw [P.bind_ok (readU32_encode big hu rest)]
  have hcast : (((v % 2 ^ 32).toNat : Int)) = v % 2 ^ 32 := Int.toNat_of_nonneg hnn
  simp only [P.pure]
  congr 1
  split
  · rename_i hsmall
    have : (v % 2 ^ 32) < 2 ^ 31 := by omega
    omega
  · rename_i hbig
    have : ¬((v % 2 ^ 32).toNat < 2 ^ 31) := hbig
    omega

theorem encodeI32_neg1 (big : Bool) : encodeI32 big (-1) = [255, 255, 255, 255] := by
  cases big <;> rfl

theorem encodeI32_length (big : Bool) (v : Int) : (encodeI32 big v).length = 4 := by
  simp [encodeI32, encodeU_length]

theorem expectU8_zero (rest : List Nat) : expectU8 0 (0 :: rest) = .ok () rest := rfl

theorem expectI32_neg1 (big : Bool) (rest : List Nat) :
    expectI32 big (-1) (255 :: 255 :: 255 :: 255 :: rest) = .ok () rest := by
  have h := readI32_encode (v := -1) big (by norm_num) (by norm_num) rest
  rw [encodeI32_neg1] at h
  simp only [List.cons_append, List.nil_append] at h
  unfold expectI32
  rw [P.bind_ok h]
  rfl

theorem readBool_cons (b : Nat) (rest : List Nat) :
    readBool (b :: rest) = .ok (decide (b = 1)) rest := rfl

set_option maxRecDepth 4096 in
theorem reverseBits8_involutive : ∀ b < 256, reverseBits8 (reverseBits8 b) = b := by
  decide

theorem and_mask_le {b m : Nat} (h : b &&& m = b) : b ≤ m := by
  calc b = b &&& m := h.symm
    _ ≤ m := Nat.and_le_right

theorem readFlagByte_encoded {mask b : Nat} (fle : Bool) (msg : String)
    (hb : b &&& mask = b) (hlt : b < 256) (rest : List Nat) :
    readFlagByte fle mask msg ((if fle then b else reverseBits8 b) :: rest) =
      .ok b rest := by
  cases fle with
  | true =>
    show readFlagByte true mask msg (b :: rest) = .ok b rest
    unfold readFlagByte
    rw [P.bind_ok (readU8_cons b rest)]
    simp [hb, P.pure]
  | false =>
    show readFlagByte false mask msg (reverseBits8 b :: rest) = .ok b rest
    unfold readFlagByte
    rw [P.bind_ok (readU8_cons (reverseBits8 b) rest)]
    simp only [Bool.false_eq_true, if_false]
    rw [reverseBits8_involutive b hlt]
    simp [hb, P.pure]

theorem optU64_step (big cond : Bool) (o : Option Nat) (h : o.isSome = cond)
    (hv : ∀ d, o = some d → d < 2 ^ 64) (rest : List Nat) :
    (if cond then P.bind (readU64 big) (fun v => P.pure (some v)) else P.pure none)
        ((match o with | some d => encodeU 8 big d | none => []) ++ rest) =
      .ok o rest := by
  cases o with
  | none =>
    simp only [Option.isSome] at h
    simp [← h, P.pure]
  | some d =>
    simp only [Option.isSome] at h
    simp only [← h, if_true]
    rw [P.bind_ok (readU64_encode big (hv d rfl) rest)]
    rfl

theorem optI32_step (big cond : Bool) (o : Option Int) (h : o.isSome = cond)
    (hv : ∀ v, o = some v → -2 ^ 31 ≤ v ∧ v < 2 ^ 31) (rest : List Nat) :
    (if cond then P.bind (readI32 big) (fun v => P.pure (some v)) else P.pure none)
        ((match o with | some v => encodeI32 big v | none => []) ++ rest) =
      .ok o rest := by
  cases o with
  | none =>
    simp only [Option.isSome] at h
    simp [← h, P.pure]
  | some v =>
    simp only [Option.isSome] at h
    simp only [← h, if_true]
    rw [P.bind_ok (readI32_encode big (hv v rfl).1 (hv v rfl).2 rest)]
    rfl

theorem optU32_step (big cond : Bool) (o : Option Nat) (h : o.isSome = cond)
    (hv : ∀ v, o = some v → v < 2 ^ 32) (rest : List Nat) :
    (if cond then P.bind (readU32 big) (fun v => P.pure (some v)) else P.pure none)
        ((match o with | some v => encodeU 4 big v | none => []) ++ rest) =
      .ok o rest := by
  cases o with
  | none =>
    simp only [Option.isSome] at h
    simp [← h, P.pure]
  | some v =>
    simp only [Option.isSome] at h
    simp only [← h, if_true]
    rw [P.bind_ok (readU32_encode big (hv v rfl) rest)]
    rfl

theorem offset_step (big long : Bool) (v : Nat)
    (hv : v < if long then 2 ^ 64 else 2 ^ 32) (rest : List Nat) :
    (if long then readU64 big else readU32 big)
        ((if long then encodeU 8 big v else encodeU 4 big v) ++ rest) =
      .ok v rest := by
  cases long with
  | true =>
    simp only [if_true] at hv ⊢
    exact readU64_encode big hv rest
  | false =>
    simp only [Bool.false_eq_true, if_false] at hv ⊢
    exact readU32_encode big hv rest

/-- C4: parsing one entry record reads the fields in exactly the order and
widths of `encodeEntry`, and the record occupies exactly
`entryRecordSize format` bytes. -/
theorem c4_entry_record_layout (big fle : Bool) (format : Nat) (e : Bnd4FileInfo)
    (rest : List Nat)
    (hf : validEntryFlags e.flags = true)
    (hsz : e.size < 2 ^ 64)
    (hcomp : e.decompressed_size.isSome = supportsCompression format)
    (hcompv : ∀ d, e.decompressed_size = some d → d < 2 ^ 64)
    (hoff : e.data_offset < if hasLongOffsets format then 2 ^ 64 else 2 ^ 32)
    (hid : e.id.isSome = supportsIds format)
    (hidv : ∀ v, e.id = some v → -2 ^ 31 ≤ v ∧ v < 2 ^ 31)
    (hname : e.name_offset.isSome = supportsFilenames format)
    (hnamev : ∀ v, e.name_offset = some v → v < 2 ^ 32) :
    read_entry_info big format fle (encodeEntry big fle format e ++ rest) =
        .ok e rest ∧
      (encodeEntry big fle format e).length = entryRecordSize format := by
  have hfv : e.flags &&& bnd4EntryFlagsMask = e.flags := by
    simpa [validEntryFlags] using hf
  have hflt : e.flags < 256 :=
    lt_of_le_of_lt (and_mask_le hfv) (by norm_num [bnd4EntryFlagsMask])
  constructor
  · simp only [encodeEntry, encodeI32_neg1, List.append_assoc, List.cons_append,
      List.nil_append, List.singleton_append]
    simp only [read_entry_info, P.bind,
      readFlagByte_encoded fle "Invalid BND4 entry flags" hfv hflt,
      expectU8_zero, expectI32_neg1 big, readU64_encode big hsz,
      optU64_step big (supportsCompression format) e.decompressed_size hcomp hcompv,
      offset_step big (hasLongOffsets format) e.data_offset hoff,
      optI32_step big (supportsIds format) e.id hid hidv,
      optU32_step big (supportsFilenames format) e.name_offset hname hnamev,
      P.pure]
  · rcases e with ⟨flags, size, doff, dsize, idv, noff⟩
    simp only at hcomp hid hname
    cases dsize <;> cases idv <;> cases noff <;>
      simp only [Option.isSome] at hcomp hid hname <;>
      cases hlong : hasLongOffsets format <;>
      simp [encodeEntry, entryRecordSize, encodeI32_neg1, encodeU_length,
        encodeI32_length, ← hcomp, ← hid, ← hname, hlong]

/-- Witness for C4 at a concrete entry and rest. -/
theorem c4_entry_record_layout_witness :
    read_entry_info false 62 true (encodeEntry false true 62 c4Entry ++ [9]) =
        .ok c4Entry [9] ∧
      (encodeEntry false true 62 c4Entry).length = entryRecordSize 62 :=
  c4_entry_record_layout false true 62 c4Entry [9] (by decide) (by decide)
    (by decide)
    (by intro d hd; injection hd with h; subst h; norm_num)
    (by decide)
    (by decide)
    (by intro v hv; injection hv with h; subst h; constructor <;> decide)
    (by decide)
    (by intro v hv; injection hv with h; subst h; decide)

/-- C5: a flag byte parsed with the flag byte order switch off is
interpreted exactly as its bit-reversed byte parsed with the switch on: at
the shared flag-byte decode step, at the entry-record level, and for a
whole archive whose logical format flags are SUPPORTS_IDS and
SUPPORTS_PATHS stored directly versus bit-reversed. -/
theorem c5_flag_bit_order :
    (∀ (mask : Nat) (msg : String) (b : Nat) (rest : List Nat),
        readFlagByte false mask msg (b :: rest) =
          readFlagByte true mask msg (reverseBits8 b :: rest)) ∧
    (∀ (big : Bool) (format b : Nat) (rest : List Nat),
        read_entry_info big format false (b :: rest) =
          read_entry_info big format true (reverseBits8 b :: rest)) ∧
    bnd4NewParts c5BytesDirect = bnd4NewParts c5BytesReversed ∧
    (bnd4NewParts c5BytesDirect).isSome = true := by
  refine ⟨fun mask msg b rest => rfl, fun big format b rest => rfl, rfl, rfl⟩

/-- C6: the scoped-seek combinator restores the stream position whether the
consumer succeeds or fails, and the outcome of opening an entry is
independent of the stream position the archive was left at. -/
theorem c6_scoped_seek_restores_position :
    (∀ (α : Type) (c : Cursor) (position : Nat) (consumer : P α),
        match c.atPos position consumer with
        | .ok _ c1 => c1.pos = c.pos ∧ c1.bytes = c.bytes
        | .err _ c1 => c1.pos = c.pos ∧ c1.bytes = c.bytes
        | .abort _ => True) ∧
    (∀ (a : Bnd4Archive) (index p : Nat),
        (Bnd4Archive.file { a with pos := p } index).outcome =
          (Bnd4Archive.file a index).outcome) := by
  constructor
  · intro α c position consumer
    unfold Cursor.atPos
    cases consumer (c.bytes.drop position) <;> simp
  · intro a index p
    rcases a with ⟨info, entries, bigE, bytes, pos⟩
    unfold Bnd4Archive.file
    simp only
    by_cases hc : info.file_count ≤ index
    · simp only [if_pos hc]
    · simp only [if_neg hc]
      cases hget : entries.get? index with
      | none => simp only [hget]
      | some entry =>
        simp only [hget]
        cases hname : entry.name_offset with
        | none => simp only [hname]
        | some offset =>
          simp only [hname, Cursor.atPos]
          cases hcons :
              ((if info.unicode then readUtf16 bigE else readCStr)
                (bytes.drop offset)) <;>
            simp only [hcons] <;> try rfl

/-- C1: on a successfully opened archive with zero entries, requesting
entry 0 runs the `panic` at the top of `Bnd4Archive::file` (a process
abort), not a recoverable IndexOutOfRange error value. -/
theorem c1_out_of_range_panics :
    newThenFile c1Bytes 0 = some (CResult.abort "explicit panic") := rfl

/-- C2: on container headers with valid magics and algorithm codes `KRAK`,
`EDGE` or any other non-`DFLT` code, `DcxReader::new` runs `unimplemented`
(a process abort), not a catchable UnsupportedAlgorithm error value. -/
theorem c2_unsupported_algorithm_panics :
    DcxReader.new (dcxHeaderWith krakCode dcaMagicBytes) =
        .abort "not implemented: Oodle Kraken" ∧
      DcxReader.new (dcxHeaderWith edgeCode dcaMagicBytes) =
        .abort "not implemented: Edge?" ∧
      DcxReader.new (dcxHeaderWith [90, 90, 90, 90] dcaMagicBytes) =
        .abort "not implemented" :=
  ⟨rfl, rfl, rfl⟩

/-- C3 counterexample: a header whose first magic is wrong makes
`DcxReader::new` abort through an assertion instead of returning a
FormatError error value, and a header whose fourth tag slot is garbage is
accepted, so only three tags are validated. -/
theorem c3_counterexample :
    DcxReader.new c3BadDcxHeader = .abort "assertion failed: dcx_magic" ∧
      DcxReader.new c3BadDcaHeader = .ok [] :=
  ⟨rfl, rfl⟩

/-- C3 amended: `DcxReader::new` checks exactly the three magics `DCX\0`,
`DCP\0`, `DCS\0`; a mismatch in any of them aborts the process, and the
bytes of the fourth tag slot (offset 68) are never inspected. -/
theorem c3_three_magics_validated :
    (∀ input : List Nat, dcxMetadataSize ≤ input.length →
        ¬(getSlice input 0 4 = dcxMagicBytes ∧ getSlice input 36 4 = dcpMagicBytes ∧
            getSlice input 24 4 = dcsMagicBytes) →
        isDcxAbort (DcxReader.new input) = true) ∧
    (∀ input u : List Nat, dcxMetadataSize ≤ input.length → u.length = 4 →
        DcxReader.new (setSlice input 68 u) = DcxReader.new input) := by
  constructor
  · intro input hlen hmag
    have hlen2 : ¬(input.length < dcxMetadataSize) := not_lt.mpr hlen
    unfold DcxReader.new
    rw [if_neg hlen2]
    by_cases h1 : getSlice input 0 4 = dcxMagicBytes
    · rw [if_neg (not_not_intro h1)]
      by_cases h2 : getSlice input 36 4 = dcpMagicBytes
      · rw [if_neg (not_not_intro h2)]
        have h3 : getSlice input 24 4 ≠ dcsMagicBytes := fun h3 => hmag ⟨h1, h2, h3⟩
        rw [if_pos h3]
        rfl
      · rw [if_pos h2]
        rfl
    · rw [if_pos h1]
      rfl
  · intro input u hlen hu
    have hlen76 : 76 ≤ input.length := by simpa [dcxMetadataSize] using hlen
    have htk : (input.take 68).length = 68 := by
      simp [List.length_take]
      omega
    have hlen2 : (setSlice input 68 u).length = input.length := by
      simp [setSlice, hu, List.length_take, List.length_drop]
      omega
    have hsl : ∀ j n, j + n ≤ 68 →
        getSlice (setSlice input 68 u) j n = getSlice input j n := by
      intro j n hjn
      unfold getSlice setSlice
      rw [List.append_assoc]
      rw [List.drop_append_of_le_length (by omega)]
      rw [List.take_append_of_le_length
        (by simp [List.length_drop, List.length_take]; omega)]
      rw [List.drop_take]
      rw [List.take_take]
      rw [min_eq_left (by omega)]
    have hA : (input.take 68 ++ u).length = 72 := by
      simp [List.length_take, hu]
      omega
    have hdrop : (setSlice input 68 u).drop 76 = input.drop 76 := by
      calc (setSlice input 68 u).drop 76
          = ((input.take 68 ++ u) ++ input.drop 72).drop
              ((input.take 68 ++ u).length + 4) := by
            rw [hA]
            simp [setSlice, hu, List.append_assoc]
        _ = (input.drop 72).drop 4 := List.drop_append 4
        _ = input.drop 76 := by rw [List.drop_drop]
    unfold DcxReader.new
    rw [hlen2, hsl 0 4 (by omega), hsl 36 4 (by omega), hsl 24 4 (by omega),
      hsl 40 4 (by omega)]
    show _ = _
    unfold dcxMetadataSize
    rw [hdrop]

/-- Witness for the amended C3 at concrete inputs. -/
theorem c3_three_magics_validated_witness :
    isDcxAbort (DcxReader.new c3BadDcxHeader) = true ∧
      DcxReader.new (setSlice (dcxHeaderWith dfltCode dcaMagicBytes) 68 [9, 9, 9, 9]) =
        DcxReader.new (dcxHeaderWith dfltCode dcaMagicBytes) :=
  ⟨c3_three_magics_validated.1 c3BadDcxHeader (by decide) (by decide),
   c3_three_magics_validated.2 (dcxHeaderWith dfltCode dcaMagicBytes) [9, 9, 9, 9]
     (by decide) rfl⟩

/-! ## Exact-consumption lemmas -/

theorem ce_congr {p : P α} {m n : Nat} (h : m = n) (hp : ConsumesExactly m p) :
    ConsumesExactly n p := h ▸ hp

theorem ce_pure (a : α) : ConsumesExactly 0 (P.pure a) := by
  intro s b rest h
  unfold P.pure at h
  cases h
  exact ⟨Nat.zero_le _, rfl⟩

theorem ce_bind {p : P α} {f : α → P β} {m n : Nat}
    (hp : ConsumesExactly m p) (hf : ∀ a, ConsumesExactly n (f a)) :
    ConsumesExactly (m + n) (P.bind p f) := by
  intro s b rest h
  rw [P.bind_eq_ok] at h
  obtain ⟨a, s1, h1, h2⟩ := h
  obtain ⟨hm, hs1⟩ := hp s a s1 h1
  obtain ⟨hn, hrest⟩ := hf a s1 b rest h2
  subst hs1
  have hd := List.length_drop m s
  constructor
  · omega
  · rw [hrest, List.drop_drop]

theorem ce_fail (n : Nat) (msg : String) :
    ConsumesExactly n (failInvalid msg : P α) := by
  intro s a rest h
  simp [failInvalid] at h

theorem ce_ite (c : Prop) [Decidable c] {p q : P α} {n : Nat}
    (hp : ConsumesExactly n p) (hq : ConsumesExactly n q) :
    ConsumesExactly n (if c then p else q) := by
  by_cases h : c
  · rw [if_pos h]; exact hp
  · rw [if_neg h]; exact hq

theorem ce_readU8 : ConsumesExactly 1 readU8 := by
  intro s a rest h
  cases s with
  | nil => simp [readU8] at h
  | cons b t =>
    rw [readU8_cons] at h
    cases h
    exact ⟨by simp, rfl⟩

theorem ce_readBytes (n : Nat) : ConsumesExactly n (readBytes n) := by
  induction n with
  | zero => exact ce_pure []
  | succ n ih =>
    exact ce_congr (by omega)
      (ce_bind ce_readU8 fun b => ce_bind ih fun bs => ce_pure (b :: bs))

theorem ce_readUN (n : Nat) (big : Bool) : ConsumesExactly n (readUN n big) :=
  ce_congr (by omega) (ce_bind (ce_readBytes n) fun bs => ce_pure _)

theorem ce_readU32 (big : Bool) : ConsumesExactly 4 (readU32 big) :=
  ce_readUN 4 big

theorem ce_readU64 (big : Bool) : ConsumesExactly 8 (readU64 big) :=
  ce_readUN 8 big

theorem ce_readI32 (big : Bool) : ConsumesExactly 4 (readI32 big) :=
  ce_congr (by omega) (ce_bind (ce_readU32 big) fun v => ce_pure _)

theorem ce_readBool : ConsumesExactly 1 readBool :=
  ce_congr (by omega) (ce_bind ce_readU8 fun v => ce_pure _)

theorem ce_expectU8 (v : Nat) : ConsumesExactly 1 (expectU8 v) :=
  ce_congr (by omega)
    (ce_bind ce_readU8 fun b => ce_ite _ (ce_pure ()) (ce_fail 0 _))

theorem ce_expectI32 (big : Bool) (v : Int) : ConsumesExactly 4 (expectI32 big v) :=
  ce_congr (by omega)
    (ce_bind (ce_readI32 big) fun x => ce_ite _ (ce_pure ()) (ce_fail 0 _))

theorem ce_expectBytes (l : List Nat) :
    ConsumesExactly l.length (expectBytes l) := by
  induction l with
  | nil => exact ce_pure ()
  | cons b bs ih =>
    exact ce_congr (by simp; omega)
      (ce_bind ce_readU8 fun v => ce_ite _ ih (ce_fail bs.length _))

theorem ce_readFlagByte (fle : Bool) (mask : Nat) (msg : String) :
    ConsumesExactly 1 (readFlagByte fle mask msg) :=
  ce_congr (by omega)
    (ce_bind ce_readU8 fun fb => ce_ite _ (ce_pure _) (ce_fail 0 _))

theorem ce_read_archive_info (big fle : Bool) :
    ConsumesExactly 52 (read_archive_info big fle) :=
  ce_congr (by norm_num)
    (ce_bind (ce_readU32 big) fun _ =>
     ce_bind (ce_readU64 big) fun _ =>
     ce_bind (ce_readBytes 8) fun _ =>
     ce_bind (ce_readU64 big) fun _ =>
     ce_bind (ce_readU64 big) fun _ =>
     ce_bind ce_readBool fun _ =>
     ce_bind (ce_readFlagByte fle bnd4FlagsMask "Invalid BND4 archive flags") fun _ =>
     ce_bind ce_readBool fun _ =>
     ce_bind (ce_expectU8 0) fun _ =>
     ce_bind (ce_readU32 big) fun _ =>
     ce_bind (ce_readU64 big) fun _ =>
     ce_pure _)

theorem ce_bnd4Preamble : ConsumesExactly 12 bnd4Preamble :=
  ce_congr (by norm_num)
    (ce_bind (ce_expectBytes [66, 78, 68, 52]) fun _ =>
     ce_bind ce_readBool fun _ =>
     ce_bind ce_readBool fun _ =>
     ce_bind (ce_expectU8 0) fun _ =>
     ce_bind (ce_expectU8 0) fun _ =>
     ce_bind (ce_expectU8 0) fun _ =>
     ce_bind ce_readBool fun _ =>
     ce_bind ce_readBool fun _ =>
     ce_bind ce_readU8 fun _ =>
     ce_pure _)

theorem ce_bnd4Header : ConsumesExactly 64 bnd4Header :=
  ce_congr (by norm_num)
    (ce_bind ce_bnd4Preamble fun sel =>
     ce_bind (ce_read_archive_info sel.1 sel.2) fun info =>
     ce_pure _)

/-- C10: whenever `Bnd4Archive::new` gets past the header, it has consumed
exactly 64 bytes before the first entry record, and the byte at offset 11
and the u32 at offsets 52-55 are read but neither validated nor recorded:
over the whole family of headers varying those five bytes the parse
succeeds with the same recorded values. -/
theorem c10_header_consumes_64 :
    (∀ (s : List Nat) (v : Bool × Bool × Bnd4ArchiveInfo) (rest : List Nat),
        bnd4Header s = .ok v rest → 64 ≤ s.length ∧ rest = s.drop 64) ∧
    (∀ b u1 u2 u3 u4 : Nat,
        bnd4Header (c10Family b u1 u2 u3 u4) = .ok (false, true, c10Info) []) := by
  constructor
  · intro s v rest h
    exact ce_bnd4Header s v rest h
  · intro b u1 u2 u3 u4
    rfl

/-- Witness for C10 at a concrete successful parse. -/
theorem c10_header_consumes_64_witness :
    64 ≤ c1Bytes.length ∧ ([] : List Nat) = c1Bytes.drop 64 :=
  c10_header_consumes_64.1 c1Bytes (false, true, c10Info) [] rfl

/-! ## Inversion lemmas for successful parses -/

theorem P.bind_err {m : P α} {f : α → P β} {s s1 : List Nat} {e : IoErr}
    (h : m s = .err e s1) : P.bind m f s = .err e s1 := by
  unfold P.bind
  rw [h]

theorem readFlagByte_cons (fle : Bool) (mask : Nat) (msg : String) (b : Nat)
    (rest : List Nat) :
    readFlagByte fle mask msg (b :: rest) =
      (if (if fle then b else reverseBits8 b) &&& mask =
          (if fle then b else reverseBits8 b)
       then .ok (if fle then b else reverseBits8 b) rest
       else .err (.invalidData msg) rest) := by
  unfold readFlagByte
  rw [P.bind_ok (readU8_cons b rest)]
  show (if (if fle then b else reverseBits8 b) &&& mask =
          (if fle then b else reverseBits8 b)
        then P.pure (if fle then b else reverseBits8 b)
        else failInvalid msg) rest = _
  by_cases hc : ((if fle then b else reverseBits8 b) &&& mask =
      (if fle then b else reverseBits8 b))
  · rw [if_pos hc, if_pos hc]
    rfl
  · rw [if_neg hc, if_neg hc]
    rfl

theorem readFlagByte_invalid (fle : Bool) (mask : Nat) (msg : String) (b : Nat)
    (rest : List Nat)
    (h : ¬((if fle then b else reverseBits8 b) &&& mask =
        (if fle then b else reverseBits8 b))) :
    readFlagByte fle mask msg (b :: rest) = .err (.invalidData msg) rest := by
  rw [readFlagByte_cons, if_neg h]

theorem readFlagByte_ok_valid {fle : Bool} {mask : Nat} {msg : String}
    {s : List Nat} {bits : Nat} {rest : List Nat}
    (h : readFlagByte fle mask msg s = .ok bits rest) : bits &&& mask = bits := by
  cases s with
  | nil => simp [readFlagByte, P.bind, readU8] at h
  | cons b t =>
    rw [readFlagByte_cons] at h
    generalize (if fle = true then b else reverseBits8 b) = E at h
    split at h
    · cases h
      assumption
    · simp at h

theorem read_archive_info_format_valid {big fle : Bool} {s : List Nat}
    {info : Bnd4ArchiveInfo} {rest : List Nat}
    (h : read_archive_info big fle s = .ok info rest) :
    validBnd4Flags info.format = true := by
  unfold read_archive_info at h
  rw [P.bind_eq_ok] at h; obtain ⟨fc, s1, _, h⟩ := h
  rw [P.bind_eq_ok] at h; obtain ⟨hsz, s2, _, h⟩ := h
  rw [P.bind_eq_ok] at h; obtain ⟨ver, s3, _, h⟩ := h
  rw [P.bind_eq_ok] at h; obtain ⟨fhs, s4, _, h⟩ := h
  rw [P.bind_eq_ok] at h; obtain ⟨fhe, s5, _, h⟩ := h
  rw [P.bind_eq_ok] at h; obtain ⟨uni, s6, _, h⟩ := h
  rw [P.bind_eq_ok] at h; obtain ⟨fmt, s7, hfmt, h⟩ := h
  rw [P.bind_eq_ok] at h; obtain ⟨ext, s8, _, h⟩ := h
  rw [P.bind_eq_ok] at h; obtain ⟨u1, s9, _, h⟩ := h
  rw [P.bind_eq_ok] at h; obtain ⟨u2, s10, _, h⟩ := h
  rw [P.bind_eq_ok] at h; obtain ⟨nbo, s11, _, h⟩ := h
  unfold P.pure at h
  cases h
  simpa [validBnd4Flags] using readFlagByte_ok_valid hfmt

theorem read_entry_info_flags_valid {big : Bool} {format : Nat} {fle : Bool}
    {s : List Nat} {e : Bnd4FileInfo} {rest : List Nat}
    (h : read_entry_info big format fle s = .ok e rest) :
    validEntryFlags e.flags = true := by
  unfold read_entry_info at h
  rw [P.bind_eq_ok] at h; obtain ⟨fl, s1, hfl, h⟩ := h
  rw [P.bind_eq_ok] at h; obtain ⟨z1, s2, _, h⟩ := h
  rw [P.bind_eq_ok] at h; obtain ⟨z2, s3, _, h⟩ := h
  rw [P.bind_eq_ok] at h; obtain ⟨z3, s4, _, h⟩ := h
  rw [P.bind_eq_ok] at h; obtain ⟨m1, s5, _, h⟩ := h
  rw [P.bind_eq_ok] at h; obtain ⟨sz, s6, _, h⟩ := h
  rw [P.bind_eq_ok] at h; obtain ⟨ds, s7, _, h⟩ := h
  rw [P.bind_eq_ok] at h; obtain ⟨doff, s8, _, h⟩ := h
  rw [P.bind_eq_ok] at h; obtain ⟨idv, s9, _, h⟩ := h
  rw [P.bind_eq_ok] at h; obtain ⟨noff, s10, _, h⟩ := h
  unfold P.pure at h
  cases h
  simpa [validEntryFlags] using readFlagByte_ok_valid hfl

theorem readEntries_length {big : Bool} {fmt : Nat} {fle : Bool} :
    ∀ {n : Nat} {s : List Nat} {es : List Bnd4FileInfo} {rest : List Nat},
      readEntries big fmt fle n s = .ok es rest → es.length = n := by
  intro n
  induction n with
  | zero =>
    intro s es rest h
    unfold readEntries P.pure at h
    cases h
    rfl
  | succ n ih =>
    intro s es rest h
    unfold readEntries at h
    rw [P.bind_eq_ok] at h; obtain ⟨e1, s1, he1, h⟩ := h
    rw [P.bind_eq_ok] at h; obtain ⟨es1, s2, hes1, h⟩ := h
    unfold P.pure at h
    cases h
    simp [ih hes1]

theorem readEntries_flags_valid {big : Bool} {fmt : Nat} {fle : Bool} :
    ∀ {n : Nat} {s : List Nat} {es : List Bnd4FileInfo} {rest : List Nat},
      readEntries big fmt fle n s = .ok es rest →
      ∀ e ∈ es, validEntryFlags e.flags = true := by
  intro n
  induction n with
  | zero =>
    intro s es rest h e he
    unfold readEntries P.pure at h
    cases h
    simp at he
  | succ n ih =>
    intro s es rest h e he
    unfold readEntries at h
    rw [P.bind_eq_ok] at h; obtain ⟨e1, s1, he1, h⟩ := h
    rw [P.bind_eq_ok] at h; obtain ⟨es1, s2, hes1, h⟩ := h
    unfold P.pure at h
    cases h
    rcases List.mem_cons.mp he with rfl | hmem
    · exact read_entry_info_flags_valid he1
    · exact ih hes1 e hmem

theorem bnd4Header_format_valid {s : List Nat} {big fle : Bool}
    {info : Bnd4ArchiveInfo} {rest : List Nat}
    (h : bnd4Header s = .ok (big, fle, info) rest) :
    validBnd4Flags info.format = true := by
  unfold bnd4Header at h
  rw [P.bind_eq_ok] at h; obtain ⟨sel, s1, _, h⟩ := h
  rw [P.bind_eq_ok] at h; obtain ⟨info1, s2, hinfo, h⟩ := h
  unfold P.pure at h
  cases h
  exact read_archive_info_format_valid hinfo

theorem bnd4New_ok {bytes : List Nat} {a : Bnd4Archive} {rest : List Nat}
    (h : bnd4New bytes = .ok a rest) :
    a.entries.length = a.archive_info.file_count ∧ a.bytes = bytes ∧
      validBnd4Flags a.archive_info.format = true ∧
      ∀ e ∈ a.entries, validEntryFlags e.flags = true := by
  unfold bnd4New at h
  cases hh : bnd4Header bytes with
  | ok v rest1 =>
    obtain ⟨big, fle, info⟩ := v
    rw [hh] at h
    dsimp only at h
    cases he : readEntries big info.format fle info.file_count rest1 with
    | ok entries rest2 =>
      rw [he] at h
      dsimp only at h
      cases h
      exact ⟨readEntries_length he, rfl, bnd4Header_format_valid hh,
        readEntries_flags_valid he⟩
    | err e r =>
      rw [he] at h
      simp at h
    | abort msg =>
      rw [he] at h
      simp at h
  | err e r =>
    rw [hh] at h
    simp at h
  | abort msg =>
    rw [hh] at h
    simp at h

/-- C8: a bit-order-corrected flag byte with a bit outside the defined set
makes the flag-byte decode step (and hence entry parsing) fail with an
InvalidData error surfaced to the caller, and a successfully opened archive
never carries such a flag set, in its header or in any entry. -/
theorem c8_invalid_flag_bits :
    (∀ (fle : Bool) (mask : Nat) (msg : String) (b : Nat) (rest : List Nat),
        ¬((if fle then b else reverseBits8 b) &&& mask =
            (if fle then b else reverseBits8 b)) →
        readFlagByte fle mask msg (b :: rest) = .err (.invalidData msg) rest) ∧
    (∀ (big : Bool) (format : Nat) (fle : Bool) (b : Nat) (rest : List Nat),
        ¬((if fle then b else reverseBits8 b) &&& bnd4EntryFlagsMask =
            (if fle then b else reverseBits8 b)) →
        read_entry_info big format fle (b :: rest) =
          .err (.invalidData "Invalid BND4 entry flags") rest) ∧
    (∀ (bytes : List Nat) (a : Bnd4Archive) (rest : List Nat),
        bnd4New bytes = .ok a rest →
        validBnd4Flags a.archive_info.format = true ∧
          ∀ e ∈ a.entries, validEntryFlags e.flags = true) := by
  refine ⟨readFlagByte_invalid, ?_, ?_⟩
  · intro big format fle b rest h
    unfold read_entry_info
    exact P.bind_err (readFlagByte_invalid fle _ _ b rest h)
  · intro bytes a rest h
    exact ⟨(bnd4New_ok h).2.2.1, (bnd4New_ok h).2.2.2⟩

/-- Witness for C8 at concrete inputs. -/
theorem c8_invalid_flag_bits_witness :
    readFlagByte true bnd4FlagsMask "Invalid BND4 archive flags" (255 :: [1, 2]) =
        .err (.invalidData "Invalid BND4 archive flags") [1, 2] ∧
      read_entry_info false 0 true (255 :: [3]) =
        .err (.invalidData "Invalid BND4 entry flags") [3] ∧
      (validBnd4Flags c7Arch.archive_info.format = true ∧
        validEntryFlags c7Entry.flags = true) :=
  ⟨c8_invalid_flag_bits.1 true bnd4FlagsMask "Invalid BND4 archive flags" 255 [1, 2]
     (by decide),
   c8_invalid_flag_bits.2.1 false 0 true 255 [3] (by decide),
   (c8_invalid_flag_bits.2.2 c7Bytes c7Arch [65, 66] rfl).1,
   (c8_invalid_flag_bits.2.2 c7Bytes c7Arch [65, 66] rfl).2 c7Entry (by decide)⟩

/-- C9: the UTF-16 decoder consumes bytes in pairs, stops exactly at a
two-byte zero pair (a zero byte inside a non-zero pair does not stop it)
and combines each pair into a code unit in the requested byte order. -/
theorem c9_utf16_pairwise (big : Bool) (pairs : List (Nat × Nat))
    (rest : List Nat) (h : ∀ p ∈ pairs, p ≠ (0, 0)) :
    readUtf16 big (encodePairs pairs ++ 0 :: 0 :: rest) =
      .ok (pairs.map fun p => if big then 256 * p.1 + p.2 else p.1 + 256 * p.2)
        rest := by
  induction pairs with
  | nil =>
    show readUtf16List big (0 :: 0 :: rest) = .ok [] rest
    simp [readUtf16List]
  | cons p ps ih =>
    rcases p with ⟨l, hb⟩
    have hne : ¬(l = 0 ∧ hb = 0) := by
      have hmem := h (l, hb) (List.mem_cons_self _ _)
      rintro ⟨rfl, rfl⟩
      exact hmem rfl
    have ihh := ih fun q hq => h q (List.mem_cons_of_mem _ hq)
    unfold readUtf16 at ihh
    show readUtf16List big (l :: hb :: (encodePairs ps ++ 0 :: 0 :: rest)) = _
    rw [readUtf16List, if_neg hne, ihh]
    rfl

/-- Witness for C9: two pairs each containing a zero byte, little-endian
order. -/
theorem c9_utf16_pairwise_witness :
    readUtf16 false (encodePairs [(0, 65), (66, 0)] ++ 0 :: 0 :: [9, 9]) =
      .ok [16640, 66] [9, 9] := by
  have h := c9_utf16_pairwise false [(0, 65), (66, 0)] [9, 9] (by decide)
  simpa using h

theorem dcx_new_ok_payload {l p : List Nat} (h : DcxReader.new l = .ok p) :
    p = l.drop dcxMetadataSize := by
  unfold DcxReader.new at h
  split_ifs at h <;> first | (cases h; rfl) | simp at h

/-- C7: on a parsed archive whose entries are valid, opening any in-range
entry succeeds, the opened entry is the table's `i`-th record, fully
draining its reader yields exactly the declared decompressed size when the
field is present and the declared size otherwise, and the reader's byte
source is contained in the `size`-bounded view starting at the entry's
data offset. -/
theorem c7_open_entry_drain (inflate : List Nat → Option (List Nat))
    (bytes : List Nat) (a : Bnd4Archive) (rest : List Nat)
    (hnew : bnd4New bytes = .ok a rest) (hv : ValidArchive inflate a)
    (i : Nat) (hi : i < a.len) :
    match Bnd4Archive.file a i with
    | .ok f _ =>
        a.entries.get? i = some f.entry ∧
          (Bnd4File.drain inflate f).map List.length =
            some (declaredDrainLen f.entry) ∧
          List.IsSuffix f.sourceBytes
            ((a.bytes.drop f.entry.data_offset).take f.entry.size)
    | _ => False := by
  have hlen := (bnd4New_ok hnew).1
  unfold Bnd4Archive.len at hi
  have hilen : i < a.entries.length := by omega
  have hget : a.entries.get? i = some (a.entries.get ⟨i, hilen⟩) :=
    List.get?_eq_get hilen
  set e := a.entries.get ⟨i, hilen⟩ with he
  obtain ⟨hbound, hnameok, hcompsupp, hcompdcx, huncomp⟩ :=
    hv e (List.get?_mem hget)
  set data := (a.bytes.drop e.data_offset).take e.size with hdata
  have hdatalen : data.length = e.size := by
    simp [hdata, List.length_take, List.length_drop]
    omega
  have htail : ∀ (nm : Option (List Nat)) (c2 : Cursor),
      match (if entryCompressed e.flags = true then
               (match DcxReader.new data with
                | DcxResult.ok payload =>
                    CResult.ok
                      (Bnd4File.mk e nm (Bnd4FileReader.compressed payload)) c2
                | DcxResult.err e2 => CResult.err e2 c2
                | DcxResult.abort msg => CResult.abort msg)
             else CResult.ok
                    (Bnd4File.mk e nm (Bnd4FileReader.uncompressed data)) c2) with
      | CResult.ok f _ =>
          some e = some f.entry ∧
            (Bnd4File.drain inflate f).map List.length =
              some (declaredDrainLen f.entry) ∧
            List.IsSuffix f.sourceBytes
              ((a.bytes.drop f.entry.data_offset).take f.entry.size)
      | _ => False := by
    intro nm c2
    cases hc : entryCompressed e.flags with
    | false =>
      simp only [hc, Bool.false_eq_true, if_false]
      refine ⟨trivial, ?_, List.suffix_refl _⟩
      show (some data).map List.length = some (declaredDrainLen e)
      rw [Option.map, hdatalen]
      unfold declaredDrainLen
      cases hds : e.decompressed_size with
      | none => rfl
      | some d => rw [huncomp hc d hds]
    | true =>
      have h2 := hcompdcx hc
      cases hdcx : DcxReader.new data with
      | ok payload =>
        rw [hdcx] at h2
        simp only [hc, if_true, hdcx]
        refine ⟨trivial, ?_, ?_⟩
        · exact h2
        · have hp := dcx_new_ok_payload hdcx
          show List.IsSuffix payload data
          rw [hp]
          exact List.drop_suffix _ _
      | err e2 =>
        rw [hdcx] at h2
        simp only [hc, if_true, hdcx]
        exact h2
      | abort m =>
        rw [hdcx] at h2
        simp only [hc, if_true, hdcx]
        exact h2
  unfold Bnd4Archive.file
  rw [if_neg (by omega)]
  rw [hget]
  dsimp only
  cases hno : e.name_offset with
  | none =>
    dsimp only
    exact htail none _
  | some off =>
    have hn := hnameok off hno
    dsimp only [Cursor.atPos]
    cases hcons : ((if a.archive_info.unicode then readUtf16 a.is_big_endian
        else readCStr) (a.bytes.drop off)) with
    | ok nm r =>
      simp only [hcons]
      exact htail (some nm) _
    | err e2 r =>
      simp [hcons] at hn
    | abort m =>
      simp [hcons] at hn

/-- Witness for C7: the concrete archive `c7Arch` with one raw entry. -/
theorem c7_open_entry_drain_witness :
    bnd4New c7Bytes = .ok c7Arch [65, 66] ∧
      c7Arch.entries.get? 0 = some c7File.entry ∧
      (Bnd4File.drain (fun _ => none) c7File).map List.length =
        some (declaredDrainLen c7File.entry) ∧
      List.IsSuffix c7File.sourceBytes
        ((c7Arch.bytes.drop c7File.entry.data_offset).take c7File.entry.size) := by
  refine ⟨rfl, c7_open_entry_drain (fun _ => none) c7Bytes c7Arch [65, 66] rfl ?_ 0 ?_⟩
  · intro e he
    have he2 : e = Bnd4FileInfo.mk 0 2 84 none none none := by
      simpa [c7Arch] using he
    subst he2
    refine ⟨by decide, ?_, ?_, ?_, ?_⟩
    · intro off hoff
      exact Option.noConfusion hoff
    · intro hcomp
      exact absurd hcomp (by decide)
    · intro hcomp
      exact absurd hcomp (by decide)
    · intro _ d hd
      exact Option.noConfusion hd
  · show 0 < Bnd4Archive.len c7Arch
    decide

end Souls
